import Mathlib

/-!
Shallow embedding of the ChatGPT-Folders-Extension content script
(src/extension/content.js, version 2.4.0) and proofs about its
domain-model operations.

Modelling conventions:
* JS numbers used as timestamps (`Date.now()`) are modelled as `Int`,
  supplied explicitly as a parameter `t` where the code calls `now()`.
* `null` timestamp fields are `Option Int` (`none` = JS `null`).
* Names and hrefs are `String`s; sanitization (`sanitizeString`, a DOM
  round-trip) is outside the domain model, so names are taken
  already-sanitized.
* The transient folder-expansion map (a JS object keyed by folder name)
  is modelled as a function `String → Option Bool`
  (`none` = key absent, i.e. JS `undefined`).
* Event handlers that mutate `foldersData` / `bookmarkChats` in place are
  modelled as pure functions from the document (and expansion state) to
  the new document (and expansion state).  `findIndex`-then-mutate code
  is modelled by structurally equivalent first-match recursions.
-/

namespace ChatFoldersExt

/-- A chat record: `{ name, href, pinned, pinnedAt, creationIndex }`. -/
structure Chat where
  name : String
  href : String
  pinned : Bool
  pinnedAt : Option Int
  creationIndex : Int
deriving Repr, DecidableEq

/-- A folder record: `{ name, chats, pinned, pinnedAt, creationIndex }`. -/
structure Folder where
  name : String
  chats : List Chat
  pinned : Bool
  pinnedAt : Option Int
  creationIndex : Int
deriving Repr, DecidableEq

/-- The persisted document: `{ foldersData, bookmarkChats }`. -/
structure Document where
  foldersData : List Folder
  bookmarkChats : List Chat
deriving Repr, DecidableEq

/-- The default empty document returned by `loadData` when nothing is stored. -/
def emptyDoc : Document := { foldersData := [], bookmarkChats := [] }

/-- The transient folder-expansion map `folderExpansionState`:
`none` models an absent key (JS `undefined`). -/
def FolderExpansionState : Type := String → Option Bool

/-- The expansion map with no keys. -/
def esEmpty : FolderExpansionState := fun _ => none

/-- Setting `folderExpansionState[name] = true`. -/
def esSetTrue (es : FolderExpansionState) (name : String) : FolderExpansionState :=
  fun n => if n = name then some true else es n

/-- `delete folderExpansionState[name]`. -/
def esDelete (es : FolderExpansionState) (name : String) : FolderExpansionState :=
  fun n => if n = name then none else es n

/-- The expansion-state migration performed by the folder rename handler:
read `wasExpanded = folderExpansionState[oldName] || false`, delete the
old key, then set the new key to `wasExpanded`. -/
def esRename (es : FolderExpansionState) (oldName newName : String) : FolderExpansionState :=
  fun n => if n = newName then some ((es oldName).getD false)
           else if n = oldName then none
           else es n

/-- The pin-relevant fields shared by folders and chats; `sortItems`
reads exactly these. -/
structure Item where
  pinned : Bool
  pinnedAt : Option Int
  creationIndex : Int
deriving Repr, DecidableEq

/-- Projection of a `Chat` to its sort keys. -/
def Chat.item (c : Chat) : Item :=
  { pinned := c.pinned, pinnedAt := c.pinnedAt, creationIndex := c.creationIndex }

/-- Projection of a `Folder` to its sort keys. -/
def Folder.item (f : Folder) : Item :=
  { pinned := f.pinned, pinnedAt := f.pinnedAt, creationIndex := f.creationIndex }

/-- The comparator `sortItems(a, b)` from content.js:
pinned items first; both pinned → ascending `pinnedAt` (with `null`
read as 0 via `|| 0`); both unpinned → ascending `creationIndex`. -/
def sortItems (a b : Item) : Int :=
  if a.pinned != b.pinned then
    if a.pinned then -1 else 1
  else if a.pinned && b.pinned then
    a.pinnedAt.getD 0 - b.pinnedAt.getD 0
  else
    a.creationIndex - b.creationIndex

/-- Insert `x` into an already-sorted list, after every element `y` with
`cmp y x ≤ 0`; the building block of a stable comparator sort. -/
def insertCmp (cmp : α → α → Int) (x : α) : List α → List α
  | [] => [x]
  | y :: ys => if 0 < cmp y x then x :: y :: ys else y :: insertCmp cmp x ys

/-- Stable comparator sort modelling `Array.prototype.sort(cmp)`
(stable per the ECMAScript specification). -/
def jsSort (cmp : α → α → Int) (l : List α) : List α :=
  l.foldl (fun acc x => insertCmp cmp x acc) []

/-- Errors surfaced to the user via blocking `alert` dialogs. -/
inductive DomainError where
  | duplicateName
deriving Repr, DecidableEq

/-- The create-folder click handler (domain part): rejects a duplicate
name, otherwise appends a fresh folder with `chats=[]`, `pinned=false`,
`pinnedAt=null`, `creationIndex=now()`. -/
def createFolder (d : Document) (name : String) (t : Int) : Except DomainError Document :=
  if d.foldersData.any (fun f => f.name == name) then
    .error .duplicateName
  else
    .ok { d with foldersData :=
      d.foldersData ++ [{ name := name, chats := [], pinned := false,
                          pinnedAt := none, creationIndex := t }] }

/-- Folding `createFolder` over a list of (name, timestamp) calls,
stopping at the first error. -/
def createFolders (d : Document) : List (String × Int) → Except DomainError Document
  | [] => .ok d
  | p :: ps =>
    match createFolder d p.1 p.2 with
    | .error e => .error e
    | .ok d' => createFolders d' ps

/-- The `togglePin(item)` helper (applied to chats), taking the current
time for `Date.now()`: false→true sets `pinnedAt`, true→false clears it. -/
def togglePin (t : Int) (c : Chat) : Chat :=
  if !c.pinned then { c with pinned := true, pinnedAt := some t }
  else { c with pinned := false, pinnedAt := none }

/-- The same pin flip inlined in the folder-pin click handler. -/
def togglePinFolder (t : Int) (f : Folder) : Folder :=
  if !f.pinned then { f with pinned := true, pinnedAt := some t }
  else { f with pinned := false, pinnedAt := none }

/-- Rename the first folder whose name is `oldName` (the
`findIndex`-then-assign of the dblclick handler); `none` when no folder
matches (`folderIndex === -1`). -/
def renameFolderList (oldName newName : String) : List Folder → Option (List Folder)
  | [] => none
  | f :: fs =>
    if f.name == oldName then some ({ f with name := newName } :: fs)
    else (renameFolderList oldName newName fs).map (f :: ·)

/-- The folder-rename dblclick handler: duplicate-name guard over ALL
folders, then rename-in-place of the first folder named `oldName` plus
the expansion-state key migration.  When no folder matches, nothing
happens (no error, no change). -/
def renameFolder (d : Document) (es : FolderExpansionState) (oldName newName : String) :
    Except DomainError (Document × FolderExpansionState) :=
  if d.foldersData.any (fun f => f.name == newName) then
    .error .duplicateName
  else
    match renameFolderList oldName newName d.foldersData with
    | none => .ok (d, es)
    | some fs => .ok ({ d with foldersData := fs }, esRename es oldName newName)

/-- Remove the first folder named `name` (`findIndex` + `splice`);
`none` when no folder matches. -/
def deleteFolderList (name : String) : List Folder → Option (List Folder)
  | [] => none
  | f :: fs =>
    if f.name == name then some fs
    else (deleteFolderList name fs).map (f :: ·)

/-- The delete-folder click handler (after the confirm dialog): removes
the folder and discards its expansion-state entry. -/
def deleteFolder (d : Document) (es : FolderExpansionState) (name : String) :
    Document × FolderExpansionState :=
  match deleteFolderList name d.foldersData with
  | none => (d, es)
  | some fs => ({ d with foldersData := fs }, esDelete es name)

/-- Flip the pin of the first folder named `name`; `none` when absent. -/
def toggleFolderPinList (name : String) (t : Int) : List Folder → Option (List Folder)
  | [] => none
  | f :: fs =>
    if f.name == name then some (togglePinFolder t f :: fs)
    else (toggleFolderPinList name t fs).map (f :: ·)

/-- The folder-pin click handler: flips `pinned`/`pinnedAt` of the first
folder named `name`; deliberately does NOT touch the expansion state. -/
def toggleFolderPin (d : Document) (es : FolderExpansionState) (name : String) (t : Int) :
    Document × FolderExpansionState :=
  match toggleFolderPinList name t d.foldersData with
  | none => (d, es)
  | some fs => ({ d with foldersData := fs }, es)

/-- Flip the pin of the first chat matching `(chatName, chatHref)`;
`none` when absent. -/
def toggleChatPinList (chatName chatHref : String) (t : Int) : List Chat → Option (List Chat)
  | [] => none
  | c :: cs =>
    if c.name == chatName && c.href == chatHref then some (togglePin t c :: cs)
    else (toggleChatPinList chatName chatHref t cs).map (c :: ·)

/-- In the first folder named `folderName`, flip the pin of the first
chat matching `(chatName, chatHref)`; `none` when folder or chat absent. -/
def toggleChatPinFolders (folderName chatName chatHref : String) (t : Int) :
    List Folder → Option (List Folder)
  | [] => none
  | f :: fs =>
    if f.name == folderName then
      match toggleChatPinList chatName chatHref t f.chats with
      | none => none
      | some cs => some ({ f with chats := cs } :: fs)
    else (toggleChatPinFolders folderName chatName chatHref t fs).map (f :: ·)

/-- The pin-chat click handler for a chat inside a folder: on success it
also sets `folderExpansionState[folderName] = true` ("Keep folder
expanded" in the source). -/
def toggleChatPinInFolder (d : Document) (es : FolderExpansionState)
    (folderName chatName chatHref : String) (t : Int) :
    Document × FolderExpansionState :=
  match toggleChatPinFolders folderName chatName chatHref t d.foldersData with
  | none => (d, es)
  | some fs => ({ d with foldersData := fs }, esSetTrue es folderName)

/-- The pin-chat click handler for a root bookmark chat: flips the pin
of the first bookmark matching `(chatName, chatHref)`; expansion state
untouched. -/
def toggleBookmarkPin (d : Document) (es : FolderExpansionState)
    (chatName chatHref : String) (t : Int) :
    Document × FolderExpansionState :=
  match toggleChatPinList chatName chatHref t d.bookmarkChats with
  | none => (d, es)
  | some cs => ({ d with bookmarkChats := cs }, es)

/-- In the first folder named `folderName`: reject when a chat with the
same `(name, href)` is already present, otherwise append a fresh chat;
`none` when the folder is absent or the chat is a duplicate. -/
def addChatFolders (folderName chatName chatHref : String) (t : Int) :
    List Folder → Option (List Folder)
  | [] => none
  | f :: fs =>
    if f.name == folderName then
      if f.chats.any (fun c => c.name == chatName && c.href == chatHref) then none
      else some ({ f with chats := f.chats ++
        [{ name := chatName, href := chatHref, pinned := false,
           pinnedAt := none, creationIndex := t }] } :: fs)
    else (addChatFolders folderName chatName chatHref t fs).map (f :: ·)

/-- The add-chat-to-folder click handler: on success it also sets
`folderExpansionState[folderName] = true`. -/
def addChatToFolder (d : Document) (es : FolderExpansionState)
    (folderName chatName chatHref : String) (t : Int) :
    Document × FolderExpansionState :=
  match addChatFolders folderName chatName chatHref t d.foldersData with
  | none => (d, es)
  | some fs => ({ d with foldersData := fs }, esSetTrue es folderName)

/-- The bookmark-current-chat click handler: reject a duplicate
`(name, href)`, otherwise append a fresh bookmark chat. -/
def addBookmark (d : Document) (chatName chatHref : String) (t : Int) : Document :=
  if d.bookmarkChats.any (fun c => c.name == chatName && c.href == chatHref) then d
  else { d with bookmarkChats := d.bookmarkChats ++
    [{ name := chatName, href := chatHref, pinned := false,
       pinnedAt := none, creationIndex := t }] }

/-- The delete-chat handler for a chat inside a folder: `filter` keeps
every chat with a different name OR a different href, i.e. removes all
chats matching both; applied to the first folder named `folderName`. -/
def removeChatFolders (folderName chatName chatHref : String) :
    List Folder → Option (List Folder)
  | [] => none
  | f :: fs =>
    if f.name == folderName then
      some ({ f with chats :=
        f.chats.filter (fun c => !(c.name == chatName && c.href == chatHref)) } :: fs)
    else (removeChatFolders folderName chatName chatHref fs).map (f :: ·)

/-- The delete-chat click handler (folder case): on success it also sets
`folderExpansionState[folderName] = true`. -/
def removeChatFromFolder (d : Document) (es : FolderExpansionState)
    (folderName chatName chatHref : String) :
    Document × FolderExpansionState :=
  match removeChatFolders folderName chatName chatHref d.foldersData with
  | none => (d, es)
  | some fs => ({ d with foldersData := fs }, esSetTrue es folderName)

/-- The delete-chat click handler (root bookmark case). -/
def removeBookmark (d : Document) (chatName chatHref : String) : Document :=
  { d with bookmarkChats :=
      d.bookmarkChats.filter (fun c => !(c.name == chatName && c.href == chatHref)) }

/-- Rename the first chat matching `(chatName, chatHref)`; `none` when
absent. -/
def renameChatList (chatName chatHref newName : String) : List Chat → Option (List Chat)
  | [] => none
  | c :: cs =>
    if c.name == chatName && c.href == chatHref then some ({ c with name := newName } :: cs)
    else (renameChatList chatName chatHref newName cs).map (c :: ·)

/-- Rename, inside the first folder named `folderName`, the first chat
matching `(chatName, chatHref)`. -/
def renameChatFolders (folderName chatName chatHref newName : String) :
    List Folder → Option (List Folder)
  | [] => none
  | f :: fs =>
    if f.name == folderName then
      match renameChatList chatName chatHref newName f.chats with
      | none => none
      | some cs => some ({ f with chats := cs } :: fs)
    else (renameChatFolders folderName chatName chatHref newName fs).map (f :: ·)

/-- The rename-chat click handler (folder case): on success it also sets
`folderExpansionState[folderName] = true`. -/
def renameChatInFolder (d : Document) (es : FolderExpansionState)
    (folderName chatName chatHref newName : String) :
    Document × FolderExpansionState :=
  match renameChatFolders folderName chatName chatHref newName d.foldersData with
  | none => (d, es)
  | some fs => ({ d with foldersData := fs }, esSetTrue es folderName)

/-- The rename-chat click handler (root bookmark case). -/
def renameBookmark (d : Document) (chatName chatHref newName : String) : Document :=
  match renameChatList chatName chatHref newName d.bookmarkChats with
  | none => d
  | some cs => { d with bookmarkChats := cs }

/-- The per-folder part of `updateChatNameIfExists`: `findIndex` by href
only, then rename that single chat when its name differs.  Returns the
new chat list and whether a change was made. -/
def updateFirstByHref (href newName : String) : List Chat → List Chat × Bool
  | [] => ([], false)
  | c :: cs =>
    if c.href == href then
      if c.name != newName then ({ c with name := newName } :: cs, true)
      else (c :: cs, false)
    else
      let r := updateFirstByHref href newName cs
      (c :: r.1, r.2)

/-- `updateChatNameIfExists(href, newName)`: renames every root bookmark
sharing the href (a `forEach`), but inside each folder only the FIRST
chat found by `findIndex` on href; returns whether anything changed
(which gates `saveData` and the re-render). -/
def updateChatNameIfExists (d : Document) (href newName : String) : Document × Bool :=
  let bms := d.bookmarkChats.map
    (fun c => if c.href == href && c.name != newName then { c with name := newName } else c)
  let bUpd := d.bookmarkChats.any (fun c => c.href == href && c.name != newName)
  let folded := d.foldersData.map (fun f =>
    let r := updateFirstByHref href newName f.chats
    ({ f with chats := r.1 }, r.2))
  ({ foldersData := folded.map Prod.fst, bookmarkChats := bms },
   bUpd || folded.any Prod.snd)

/-- JSON values, as produced by `JSON.parse` (no `undefined`). -/
inductive Json where
  | null : Json
  | bool : Bool → Json
  | num : Int → Json
  | str : String → Json
  | arr : List Json → Json
  | obj : List (String × Json) → Json
deriving Repr

/-- First-match field lookup in a JS object. -/
def lookupField : List (String × Json) → String → Option Json
  | [], _ => none
  | p :: fs, key => if p.1 == key then some p.2 else lookupField fs key

/-- Property access `j[k]`: `none` models JS `undefined` (non-objects
reached here never have the accessed data properties). -/
def getProp (j : Json) (k : String) : Option Json :=
  match j with
  | .obj fs => lookupField fs k
  | _ => none

/-- JS truthiness of a parsed JSON value. -/
def truthy : Json → Bool
  | .null => false
  | .bool b => b
  | .num n => n != 0
  | .str s => s != ""
  | .arr _ => true
  | .obj _ => true

/-- `Array.isArray` applied to a possibly-`undefined` property. -/
def isArr : Option Json → Bool
  | some (.arr _) => true
  | _ => false

/-- Property assignment `fs[key] = v`: replaces the first binding of
`key`, or appends it when absent. -/
def setField : List (String × Json) → String → Json → List (String × Json)
  | [], key, v => [(key, v)]
  | p :: fs, key, v => if p.1 == key then (key, v) :: fs else p :: setField fs key v

/-- The `typeof x.k === 'undefined'` default-assignment used by
`ensureProperties`: writes only when the key is absent. -/
def setIfAbsent (fs : List (String × Json)) (key : String) (v : Json) :
    List (String × Json) :=
  if (lookupField fs key).isSome then fs else fs ++ [(key, v)]

/-- `ensureProperties` on one chat record.  On a JS object it fills the
missing `pinned`/`pinnedAt`/`creationIndex` defaults.  A parsed ARRAY is
also an extensible object, so the strict-mode property writes succeed
and no TypeError is thrown; the three named properties they add to the
array are not part of the JSON value (`JSON.stringify` drops non-index
array properties, so they reach neither the persisted store nor an
export), hence the element is returned JSON-observably unchanged.  On
`null` the property READ throws a TypeError, and on a primitive
(boolean, number, string) the strict-mode property WRITE throws; either
way the element is left unchanged and the throw is modelled as `.error`
carrying the element. -/
def ensureChatJson (t : Int) (j : Json) : Except Json Json :=
  match j with
  | .obj fs =>
    .ok (.obj (setIfAbsent (setIfAbsent (setIfAbsent fs
      "pinned" (.bool false)) "pinnedAt" .null) "creationIndex" (.num t)))
  | .arr xs => .ok (.arr xs)
  | _ => .error j

/-- A `forEach` that migrates each element in order; on the first throw
it returns `.error` with the list as left in memory: migrated elements
before the bad one, the bad element as the throw left it, and the
untouched suffix. -/
def ensureList (f : Json → Except Json Json) : List Json → Except (List Json) (List Json)
  | [] => .ok []
  | x :: xs =>
    match f x with
    | .error x' => .error (x' :: xs)
    | .ok x' =>
      match ensureList f xs with
      | .error xs' => .error (x' :: xs')
      | .ok xs' => .ok (x' :: xs')

/-- `ensureProperties` on one folder record: fill the folder defaults,
then run `folder.chats.forEach`.  On a JS object the defaults land in
the JSON value; when `chats` is then absent or not an array, `forEach`
throws AFTER the defaults were already written.  On a parsed ARRAY the
strict-mode default writes succeed but add only non-index properties
that `JSON.stringify` drops, and `folder.chats` is `undefined`, so
`forEach` throws with the element JSON-observably unchanged — modelled
as `.error` carrying the array as-is.  On `null` and primitives the
default read/write itself throws, with the element unchanged. -/
def ensureFolderJson (t : Int) (j : Json) : Except Json Json :=
  match j with
  | .obj fs =>
    let fs3 := setIfAbsent (setIfAbsent (setIfAbsent fs
      "pinned" (.bool false)) "pinnedAt" .null) "creationIndex" (.num t)
    match lookupField fs3 "chats" with
    | some (.arr cs) =>
      match ensureList (ensureChatJson t) cs with
      | .ok cs' => .ok (.obj (setField fs3 "chats" (.arr cs')))
      | .error cs' => .error (.obj (setField fs3 "chats" (.arr cs')))
    | _ => .error (.obj fs3)
  | .arr xs => .error (.arr xs)
  | _ => .error j

/-- Outcome alert shown by the import file handler. -/
inductive ImportOutcome where
  | success
  | invalidFormat
  | failedImport
deriving Repr, DecidableEq

/-- The import `reader.onload` handler.  State is the pair of live
variables `(foldersData, bookmarkChats)` as raw JSON arrays.  `parsed`
is the result of `JSON.parse` (`none` = parse exception).  The
top-level guard is `importedData && Array.isArray(importedData.foldersData)
&& Array.isArray(importedData.bookmarkChats)`.  Crucially, the
assignments `data = importedData; foldersData = …; bookmarkChats = …`
happen BEFORE `ensureProperties()`, so a throw during migration leaves
the (partially migrated) imported data in memory while the catch block
reports a failed import. -/
def importOnLoad (cur : Json × Json) (t : Int) (parsed : Option Json) :
    (Json × Json) × ImportOutcome :=
  match parsed with
  | none => (cur, .failedImport)
  | some j =>
    match truthy j, getProp j "foldersData", getProp j "bookmarkChats" with
    | true, some (.arr fd), some (.arr bc) =>
      match ensureList (ensureFolderJson t) fd with
      | .error fd' => ((.arr fd', .arr bc), .failedImport)
      | .ok fd' =>
        match ensureList (ensureChatJson t) bc with
        | .error bc' => ((.arr fd', .arr bc'), .failedImport)
        | .ok bc' => ((.arr fd', .arr bc'), .success)
    | _, _, _ => (cur, .invalidFormat)

/-- The folder record pushed by `createFolder` for name `n` at time `t`. -/
def newFolder (n : String) (t : Int) : Folder :=
  { name := n, chats := [], pinned := false, pinnedAt := none, creationIndex := t }

/-- Sample item of the spec ordering scenario: pinned at 100. -/
def sortA : Item := { pinned := true, pinnedAt := some 100, creationIndex := 0 }

/-- Sample item of the spec ordering scenario: pinned at 50. -/
def sortB : Item := { pinned := true, pinnedAt := some 50, creationIndex := 0 }

/-- Sample item of the spec ordering scenario: unpinned, created at 10. -/
def sortC : Item := { pinned := false, pinnedAt := none, creationIndex := 10 }

/-- Sample item of the spec ordering scenario: unpinned, created at 5. -/
def sortD : Item := { pinned := false, pinnedAt := none, creationIndex := 5 }

/-- Sample chat "a" at href "h". -/
def chA : Chat := { name := "a", href := "h", pinned := false, pinnedAt := none, creationIndex := 0 }

/-- Sample chat "b" also at href "h". -/
def chB : Chat := { name := "b", href := "h", pinned := false, pinnedAt := none, creationIndex := 1 }

/-- Sample chat "c" at href "h". -/
def chC : Chat := { name := "c", href := "h", pinned := false, pinnedAt := none, creationIndex := 2 }

/-- The chat "a" after a title change to "new". -/
def chANew : Chat := { name := "new", href := "h", pinned := false, pinnedAt := none, creationIndex := 0 }

/-- Sample folder named "a". -/
def fldA : Folder := { name := "a", chats := [], pinned := false, pinnedAt := none, creationIndex := 0 }

/-- Sample folder holding two chats that share the href "h". -/
def fld1 : Folder := { name := "f", chats := [chA, chB], pinned := false, pinnedAt := none, creationIndex := 0 }

/-- The folder `fld1` after the title-change handler ran for href "h". -/
def fld1out : Folder := { name := "f", chats := [chANew, chB], pinned := false, pinnedAt := none, creationIndex := 0 }

/-- Sample folder holding one chat. -/
def fld6 : Folder := { name := "f", chats := [chA], pinned := false, pinnedAt := none, creationIndex := 0 }

/-- Sample folder named "Work". -/
def fldW : Folder := { name := "Work", chats := [], pinned := false, pinnedAt := none, creationIndex := 0 }

/-- The folder `fldW` renamed to "Projects". -/
def fldP : Folder := { name := "Projects", chats := [], pinned := false, pinnedAt := none, creationIndex := 0 }

/-- Sample folder named "dup". -/
def fldDup : Folder := { name := "dup", chats := [], pinned := false, pinnedAt := none, creationIndex := 0 }

/-- Document with the single folder `fldA`. -/
def dA : Document := { foldersData := [fldA], bookmarkChats := [] }

/-- Document whose folder contains two chats sharing one href. -/
def d1 : Document := { foldersData := [fld1], bookmarkChats := [] }

/-- Document with the single folder `fld6`. -/
def d6 : Document := { foldersData := [fld6], bookmarkChats := [] }

/-- Document with duplicate bookmark records sharing (name, href). -/
def d9 : Document := { foldersData := [], bookmarkChats := [chC, chC, chB] }

/-- Document with the single folder `fldW`. -/
def dW : Document := { foldersData := [fldW], bookmarkChats := [] }

/-- Document with the single folder `fldP`. -/
def dP : Document := { foldersData := [fldP], bookmarkChats := [] }

/-- Document with the single folder `fldDup`. -/
def dDup : Document := { foldersData := [fldDup], bookmarkChats := [] }

/-- Expansion state where "Work" is expanded. -/
def esW : FolderExpansionState := fun n => if n = "Work" then some true else none

/-- An in-memory raw state holding two empty arrays. -/
def cur0 : Json × Json := (.arr [], .arr [])

/-- Import payload that passes the top-level shape check but whose
folders array holds a `null` element, making `ensureProperties` throw. -/
def j8 : Json := .obj [("foldersData", .arr [.null]), ("bookmarkChats", .arr [])]

/-- Import payload whose bookmarks array holds an array element: the
strict-mode default writes on a parsed array succeed, so migration does
not throw and the program imports it successfully. -/
def jBmArr : Json := .obj [("foldersData", .arr []), ("bookmarkChats", .arr [.arr []])]

/-- A fully-populated chat record as JSON. -/
def cX : Json := .obj [("name", .str "c"), ("href", .str "h"), ("pinned", .bool false),
  ("pinnedAt", .null), ("creationIndex", .num 2)]

/-- A fully-populated folder record as JSON whose chats array holds the
same (name, href) record twice. -/
def fDup : Json := .obj [("name", .str "dup"), ("pinned", .bool false), ("pinnedAt", .null),
  ("creationIndex", .num 1), ("chats", .arr [cX, cX])]

/-- Import payload whose folders array holds the same folder record
(name "dup") twice. -/
def j10 : Json := .obj [("foldersData", .arr [fDup, fDup]), ("bookmarkChats", .arr [])]

/-- The invariant tying `pinned` to `pinnedAt` on one chat. -/
abbrev chatPinOk (c : Chat) : Prop := c.pinned = true ↔ c.pinnedAt ≠ none

/-- The invariant tying `pinned` to `pinnedAt` on a folder and its chats. -/
abbrev folderPinOk (f : Folder) : Prop :=
  (f.pinned = true ↔ f.pinnedAt ≠ none) ∧ ∀ c ∈ f.chats, chatPinOk c

/-- The document-wide pin invariant: `pinned` holds iff `pinnedAt` is
non-null, on every folder and every chat. -/
abbrev PinInv (d : Document) : Prop :=
  (∀ f ∈ d.foldersData, folderPinOk f) ∧ ∀ c ∈ d.bookmarkChats, chatPinOk c

lemma renameFolderList_isSome (o n : String) :
    ∀ l : List Folder, l.any (fun f => f.name == o) = true →
      ∃ fs, renameFolderList o n l = some fs := by
  intro l hl
  induction l with
  | nil => simp at hl
  | cons f fs ih =>
    by_cases hf : (f.name == o) = true
    · exact ⟨{ f with name := n } :: fs, by simp [renameFolderList, hf]⟩
    · simp only [List.any_cons, Bool.or_eq_true] at hl
      obtain ⟨gs, hgs⟩ := ih (hl.resolve_left hf)
      exact ⟨f :: gs, by simp [renameFolderList, hf, hgs]⟩

lemma removeChatFolders_decomp (fn cn ch : String) :
    ∀ (pre : List Folder) (f : Folder) (post : List Folder),
      (∀ g ∈ pre, g.name ≠ fn) → f.name = fn →
      removeChatFolders fn cn ch (pre ++ f :: post) =
        some (pre ++ { f with chats := f.chats.filter (fun c => !(c.name == cn && c.href == ch)) } :: post) := by
  intro pre
  induction pre with
  | nil =>
    intro f post _ hf
    simp [removeChatFolders, hf]
  | cons g gs ih =>
    intro f post hpre hf
    have hg : (g.name == fn) = false := by
      simpa using hpre g (by simp)
    simp only [List.cons_append, removeChatFolders, hg, Bool.false_eq_true, if_false,
      List.append_eq]
    rw [ih f post (fun x hx => hpre x (by simp [hx])) hf]
    rfl

lemma removeChatFolders_none (fn cn ch : String) :
    ∀ l : List Folder, (∀ g ∈ l, g.name ≠ fn) →
      removeChatFolders fn cn ch l = none := by
  intro l hl
  induction l with
  | nil => rfl
  | cons g gs ih =>
    have hg : (g.name == fn) = false := by simpa using hl g (by simp)
    simp only [removeChatFolders, hg, Bool.false_eq_true, if_false]
    rw [ih (fun x hx => hl x (by simp [hx]))]
    rfl

lemma updateFirstByHref_clean (href nn : String) :
    ∀ cs : List Chat, (∀ c ∈ cs, c.href ≠ href) →
      updateFirstByHref href nn cs = (cs, false) := by
  intro cs hcs
  induction cs with
  | nil => rfl
  | cons c cs ih =>
    have hc : (c.href == href) = false := by simpa using hcs c (by simp)
    simp only [updateFirstByHref, hc, Bool.false_eq_true, if_false]
    rw [ih (fun x hx => hcs x (by simp [hx]))]

lemma updateFirstByHref_decomp (href nn : String) :
    ∀ (pre : List Chat) (c : Chat) (post : List Chat),
      (∀ x ∈ pre, x.href ≠ href) → c.href = href →
      ∃ c', (updateFirstByHref href nn (pre ++ c :: post)).1 = pre ++ c' :: post ∧
        c'.name = nn ∧ c'.href = c.href ∧ c'.pinned = c.pinned ∧
        c'.pinnedAt = c.pinnedAt ∧ c'.creationIndex = c.creationIndex := by
  intro pre
  induction pre with
  | nil =>
    intro c post _ hc
    by_cases hname : (c.name != nn) = true
    · refine ⟨{ c with name := nn }, ?_, rfl, rfl, rfl, rfl, rfl⟩
      simp [updateFirstByHref, hc, hname]
    · have : c.name = nn := by simpa using hname
      refine ⟨c, ?_, this, rfl, rfl, rfl, rfl⟩
      simp [updateFirstByHref, hc, hname]
  | cons x xs ih =>
    intro c post hpre hc
    have hx : (x.href == href) = false := by simpa using hpre x (by simp)
    obtain ⟨c', hcs, h1, h2, h3, h4, h5⟩ := ih c post (fun y hy => hpre y (by simp [hy])) hc
    refine ⟨c', ?_, h1, h2, h3, h4, h5⟩
    simp only [List.cons_append, updateFirstByHref, hx, Bool.false_eq_true, if_false]
    simpa using hcs

lemma mem_zip_map {α β : Type} (g : α → β) :
    ∀ (l : List α) (p : α × β), p ∈ l.zip (l.map g) → p.2 = g p.1 := by
  intro l
  induction l with
  | nil => intro p hp; simp at hp
  | cons x xs ih =>
    intro p hp
    simp only [List.map_cons, List.zip_cons_cons] at hp
    rcases List.mem_cons.mp hp with h | h
    · rw [h]
    · exact ih p h

lemma chatPinOk_togglePin (t : Int) (c : Chat) : chatPinOk (togglePin t c) := by
  by_cases h : c.pinned = true <;> simp [togglePin, h, chatPinOk]

lemma folderPinOk_togglePinFolder (t : Int) (f : Folder) (h : ∀ c ∈ f.chats, chatPinOk c) :
    folderPinOk (togglePinFolder t f) := by
  by_cases hp : f.pinned = true <;> simp [togglePinFolder, hp, folderPinOk] <;> exact h

lemma chatPinOk_fresh (cn ch : String) (t : Int) :
    chatPinOk { name := cn, href := ch, pinned := false, pinnedAt := none, creationIndex := t } := by
  simp [chatPinOk]

lemma createFolders_ok :
    ∀ (ps : List (String × Int)) (d : Document),
      (ps.map Prod.fst).Nodup →
      (∀ p ∈ ps, ∀ f ∈ d.foldersData, f.name ≠ p.1) →
      createFolders d ps =
        .ok { foldersData := d.foldersData ++ ps.map (fun p => newFolder p.1 p.2),
              bookmarkChats := d.bookmarkChats } := by
  intro ps
  induction ps with
  | nil => intro d _ _; simp [createFolders]
  | cons p ps ih =>
    intro d hnd hfresh
    have hnotin : d.foldersData.any (fun f => f.name == p.1) = false := by
      rw [Bool.eq_false_iff]
      intro hx
      obtain ⟨f, hf, hname⟩ := List.any_eq_true.mp hx
      exact hfresh p (by simp) f hf (by simpa using hname)
    simp only [createFolders, createFolder, hnotin, Bool.false_eq_true, if_false]
    rw [ih _ (by simpa using (List.nodup_cons.mp (by simpa using hnd)).2) ?fresh]
    · simp [newFolder]
    case fresh =>
      intro q hq f hf
      rcases List.mem_append.mp hf with hfd | hsing
      · exact hfresh q (List.mem_cons_of_mem _ hq) f hfd
      · have : f = newFolder p.1 p.2 := by simpa [newFolder] using hsing
        subst this
        have h1 : p.1 ∉ ps.map Prod.fst := (List.nodup_cons.mp (by simpa using hnd)).1
        intro heq
        have hq1 : q.1 = p.1 := by simpa [newFolder] using heq.symm
        exact h1 (hq1 ▸ List.mem_map_of_mem Prod.fst hq)

lemma renameFolderList_preserve (o n : String) (Q : Folder → Prop)
    (hact : ∀ f, Q f → Q { f with name := n }) :
    ∀ (l l' : List Folder), renameFolderList o n l = some l' →
      (∀ f ∈ l, Q f) → ∀ f' ∈ l', Q f' := by
  intro l
  induction l with
  | nil => intro l' h; simp [renameFolderList] at h
  | cons f fs ih =>
    intro l' h hQ f' hf'
    by_cases hf : (f.name == o) = true
    · simp only [renameFolderList, if_pos hf] at h
      injection h with h
      subst h
      rcases List.mem_cons.mp hf' with h1 | h1
      · exact h1 ▸ hact f (hQ f (by simp))
      · exact hQ f' (by simp [h1])
    · simp only [renameFolderList, if_neg hf] at h
      obtain ⟨l₀, hl₀, rfl⟩ := Option.map_eq_some'.mp h
      rcases List.mem_cons.mp hf' with h1 | h1
      · exact h1 ▸ hQ f (by simp)
      · exact ih l₀ hl₀ (fun y hy => hQ y (by simp [hy])) f' h1

lemma deleteFolderList_preserve (n : String) (Q : Folder → Prop) :
    ∀ (l l' : List Folder), deleteFolderList n l = some l' →
      (∀ f ∈ l, Q f) → ∀ f' ∈ l', Q f' := by
  intro l
  induction l with
  | nil => intro l' h; simp [deleteFolderList] at h
  | cons f fs ih =>
    intro l' h hQ f' hf'
    by_cases hf : (f.name == n) = true
    · simp only [deleteFolderList, if_pos hf] at h
      injection h with h
      subst h
      exact hQ f' (by simp [hf'])
    · simp only [deleteFolderList, if_neg hf] at h
      obtain ⟨l₀, hl₀, rfl⟩ := Option.map_eq_some'.mp h
      rcases List.mem_cons.mp hf' with h1 | h1
      · exact h1 ▸ hQ f (by simp)
      · exact ih l₀ hl₀ (fun y hy => hQ y (by simp [hy])) f' h1

lemma toggleFolderPinList_preserve (n : String) (t : Int) (Q : Folder → Prop)
    (hact : ∀ f, Q f → Q (togglePinFolder t f)) :
    ∀ (l l' : List Folder), toggleFolderPinList n t l = some l' →
      (∀ f ∈ l, Q f) → ∀ f' ∈ l', Q f' := by
  intro l
  induction l with
  | nil => intro l' h; simp [toggleFolderPinList] at h
  | cons f fs ih =>
    intro l' h hQ f' hf'
    by_cases hf : (f.name == n) = true
    · simp only [toggleFolderPinList, if_pos hf] at h
      injection h with h
      subst h
      rcases List.mem_cons.mp hf' with h1 | h1
      · exact h1 ▸ hact f (hQ f (by simp))
      · exact hQ f' (by simp [h1])
    · simp only [toggleFolderPinList, if_neg hf] at h
      obtain ⟨l₀, hl₀, rfl⟩ := Option.map_eq_some'.mp h
      rcases List.mem_cons.mp hf' with h1 | h1
      · exact h1 ▸ hQ f (by simp)
      · exact ih l₀ hl₀ (fun y hy => hQ y (by simp [hy])) f' h1

lemma toggleChatPinList_preserve (cn ch : String) (t : Int) (Q : Chat → Prop)
    (hact : ∀ c, Q c → Q (togglePin t c)) :
    ∀ (l l' : List Chat), toggleChatPinList cn ch t l = some l' →
      (∀ c ∈ l, Q c) → ∀ c' ∈ l', Q c' := by
  intro l
  induction l with
  | nil => intro l' h; simp [toggleChatPinList] at h
  | cons c cs ih =>
    intro l' h hQ c' hc'
    by_cases hc : (c.name == cn && c.href == ch) = true
    · simp only [toggleChatPinList, if_pos hc] at h
      injection h with h
      subst h
      rcases List.mem_cons.mp hc' with h1 | h1
      · exact h1 ▸ hact c (hQ c (by simp))
      · exact hQ c' (by simp [h1])
    · simp only [toggleChatPinList, if_neg hc] at h
      obtain ⟨l₀, hl₀, rfl⟩ := Option.map_eq_some'.mp h
      rcases List.mem_cons.mp hc' with h1 | h1
      · exact h1 ▸ hQ c (by simp)
      · exact ih l₀ hl₀ (fun y hy => hQ y (by simp [hy])) c' h1

lemma toggleChatPinFolders_preserve (fn cn ch : String) (t : Int) :
    ∀ (l l' : List Folder), toggleChatPinFolders fn cn ch t l = some l' →
      (∀ f ∈ l, folderPinOk f) → ∀ f' ∈ l', folderPinOk f' := by
  intro l
  induction l with
  | nil => intro l' h; simp [toggleChatPinFolders] at h
  | cons f fs ih =>
    intro l' h hQ f' hf'
    by_cases hf : (f.name == fn) = true
    · simp only [toggleChatPinFolders, if_pos hf] at h
      cases hcs : toggleChatPinList cn ch t f.chats with
      | none => rw [hcs] at h; simp at h
      | some cs =>
        rw [hcs] at h
        injection h with h
        subst h
        rcases List.mem_cons.mp hf' with h1 | h1
        · subst h1
          have hfold := hQ f (by simp)
          exact ⟨hfold.1, toggleChatPinList_preserve cn ch t chatPinOk
            (fun c _ => chatPinOk_togglePin t c) f.chats cs hcs hfold.2⟩
        · exact hQ f' (by simp [h1])
    · simp only [toggleChatPinFolders, if_neg hf] at h
      obtain ⟨l₀, hl₀, rfl⟩ := Option.map_eq_some'.mp h
      rcases List.mem_cons.mp hf' with h1 | h1
      · exact h1 ▸ hQ f (by simp)
      · exact ih l₀ hl₀ (fun y hy => hQ y (by simp [hy])) f' h1

lemma addChatFolders_preserve (fn cn ch : String) (t : Int) :
    ∀ (l l' : List Folder), addChatFolders fn cn ch t l = some l' →
      (∀ f ∈ l, folderPinOk f) → ∀ f' ∈ l', folderPinOk f' := by
  intro l
  induction l with
  | nil => intro l' h; simp [addChatFolders] at h
  | cons f fs ih =>
    intro l' h hQ f' hf'
    by_cases hf : (f.name == fn) = true
    · simp only [addChatFolders, if_pos hf] at h
      by_cases hdup : (f.chats.any fun c => c.name == cn && c.href == ch) = true
      · rw [if_pos hdup] at h; simp at h
      · rw [if_neg hdup] at h
        injection h with h
        subst h
        rcases List.mem_cons.mp hf' with h1 | h1
        · subst h1
          have hfold := hQ f (by simp)
          refine ⟨hfold.1, ?_⟩
          intro c hc
          rcases List.mem_append.mp hc with hc1 | hc1
          · exact hfold.2 c hc1
          · have : c = { name := cn, href := ch, pinned := false, pinnedAt := none, creationIndex := t } := by
              simpa using hc1
            exact this ▸ chatPinOk_fresh cn ch t
        · exact hQ f' (by simp [h1])
    · simp only [addChatFolders, if_neg hf] at h
      obtain ⟨l₀, hl₀, rfl⟩ := Option.map_eq_some'.mp h
      rcases List.mem_cons.mp hf' with h1 | h1
      · exact h1 ▸ hQ f (by simp)
      · exact ih l₀ hl₀ (fun y hy => hQ y (by simp [hy])) f' h1

lemma removeChatFolders_preserve (fn cn ch : String) :
    ∀ (l l' : List Folder), removeChatFolders fn cn ch l = some l' →
      (∀ f ∈ l, folderPinOk f) → ∀ f' ∈ l', folderPinOk f' := by
  intro l
  induction l with
  | nil => intro l' h; simp [removeChatFolders] at h
  | cons f fs ih =>
    intro l' h hQ f' hf'
    by_cases hf : (f.name == fn) = true
    · simp only [removeChatFolders, if_pos hf] at h
      injection h with h
      subst h
      rcases List.mem_cons.mp hf' with h1 | h1
      · subst h1
        have hfold := hQ f (by simp)
        exact ⟨hfold.1, fun c hc => hfold.2 c (List.mem_of_mem_filter hc)⟩
      · exact hQ f' (by simp [h1])
    · simp only [removeChatFolders, if_neg hf] at h
      obtain ⟨l₀, hl₀, rfl⟩ := Option.map_eq_some'.mp h
      rcases List.mem_cons.mp hf' with h1 | h1
      · exact h1 ▸ hQ f (by simp)
      · exact ih l₀ hl₀ (fun y hy => hQ y (by simp [hy])) f' h1

lemma renameChatList_preserve (cn ch nn : String) (Q : Chat → Prop)
    (hact : ∀ c, Q c → Q { c with name := nn }) :
    ∀ (l l' : List Chat), renameChatList cn ch nn l = some l' →
      (∀ c ∈ l, Q c) → ∀ c' ∈ l', Q c' := by
  intro l
  induction l with
  | nil => intro l' h; simp [renameChatList] at h
  | cons c cs ih =>
    intro l' h hQ c' hc'
    by_cases hc : (c.name == cn && c.href == ch) = true
    · simp only [renameChatList, if_pos hc] at h
      injection h with h
      subst h
      rcases List.mem_cons.mp hc' with h1 | h1
      · exact h1 ▸ hact c (hQ c (by simp))
      · exact hQ c' (by simp [h1])
    · simp only [renameChatList, if_neg hc] at h
      obtain ⟨l₀, hl₀, rfl⟩ := Option.map_eq_some'.mp h
      rcases List.mem_cons.mp hc' with h1 | h1
      · exact h1 ▸ hQ c (by simp)
      · exact ih l₀ hl₀ (fun y hy => hQ y (by simp [hy])) c' h1

lemma renameChatFolders_preserve (fn cn ch nn : String) :
    ∀ (l l' : List Folder), renameChatFolders fn cn ch nn l = some l' →
      (∀ f ∈ l, folderPinOk f) → ∀ f' ∈ l', folderPinOk f' := by
  intro l
  induction l with
  | nil => intro l' h; simp [renameChatFolders] at h
  | cons f fs ih =>
    intro l' h hQ f' hf'
    by_cases hf : (f.name == fn) = true
    · simp only [renameChatFolders, if_pos hf] at h
      cases hcs : renameChatList cn ch nn f.chats with
      | none => rw [hcs] at h; simp at h
      | some cs =>
        rw [hcs] at h
        injection h with h
        subst h
        rcases List.mem_cons.mp hf' with h1 | h1
        · subst h1
          have hfold := hQ f (by simp)
          exact ⟨hfold.1, renameChatList_preserve cn ch nn chatPinOk
            (fun c hx => hx) f.chats cs hcs hfold.2⟩
        · exact hQ f' (by simp [h1])
    · simp only [renameChatFolders, if_neg hf] at h
      obtain ⟨l₀, hl₀, rfl⟩ := Option.map_eq_some'.mp h
      rcases List.mem_cons.mp hf' with h1 | h1
      · exact h1 ▸ hQ f (by simp)
      · exact ih l₀ hl₀ (fun y hy => hQ y (by simp [hy])) f' h1

lemma updateFirstByHref_preserve (href nn : String) :
    ∀ (l : List Chat), (∀ c ∈ l, chatPinOk c) →
      ∀ c' ∈ (updateFirstByHref href nn l).1, chatPinOk c' := by
  intro l
  induction l with
  | nil => intro _ c' hc'; simp [updateFirstByHref] at hc'
  | cons c cs ih =>
    intro hQ c' hc'
    by_cases hc : (c.href == href) = true
    · simp only [updateFirstByHref, if_pos hc] at hc'
      by_cases hn : (c.name != nn) = true
      · rw [if_pos hn] at hc'
        rcases List.mem_cons.mp hc' with h1 | h1
        · exact h1 ▸ (hQ c (by simp) : chatPinOk c)
        · exact hQ c' (by simp [h1])
      · rw [if_neg hn] at hc'
        rcases List.mem_cons.mp hc' with h1 | h1
        · exact h1 ▸ hQ c (by simp)
        · exact hQ c' (by simp [h1])
    · simp only [updateFirstByHref, if_neg hc] at hc'
      rcases List.mem_cons.mp hc' with h1 | h1
      · exact h1 ▸ hQ c (by simp)
      · exact ih (fun y hy => hQ y (by simp [hy])) c' h1

/-- C1 counterexample: in document `d1` one folder holds two chats
sharing href "h"; after the title-change handler renames href "h" to
"new", not every chat with that href bears the new name (the second
one keeps "b"), because the per-folder update uses `findIndex`. -/
theorem updateChatName_misses_duplicate :
    ¬ (∀ f ∈ (updateChatNameIfExists d1 "h" "new").1.foldersData,
        ∀ c ∈ f.chats, c.href = "h" → c.name = "new") := by decide

/-- C1 amended: `updateChatNameIfExists` renames every ROOT bookmark
sharing the href, but within each folder renames only the FIRST chat
(in storage order) whose href matches, leaving every chat before and
after it, including later chats sharing the href, unchanged. -/
theorem updateChatName_spec (d : Document) (href nn : String) :
    (∀ c ∈ (updateChatNameIfExists d href nn).1.bookmarkChats, c.href = href → c.name = nn) ∧
    ((updateChatNameIfExists d href nn).1.foldersData.length = d.foldersData.length) ∧
    (∀ p ∈ d.foldersData.zip (updateChatNameIfExists d href nn).1.foldersData,
      p.2.name = p.1.name ∧
      ((∀ c ∈ p.1.chats, c.href ≠ href) → p.2.chats = p.1.chats) ∧
      (∀ (pre : List Chat) (c : Chat) (post : List Chat),
        p.1.chats = pre ++ c :: post → (∀ x ∈ pre, x.href ≠ href) → c.href = href →
        ∃ c', p.2.chats = pre ++ c' :: post ∧ c'.name = nn ∧ c'.href = c.href ∧
          c'.pinned = c.pinned ∧ c'.pinnedAt = c.pinnedAt ∧ c'.creationIndex = c.creationIndex)) := by
  refine ⟨?_, ?_, ?_⟩
  · intro c' hc' hhref
    simp only [updateChatNameIfExists, List.mem_map] at hc'
    obtain ⟨c, hc, hgc⟩ := hc'
    by_cases h1 : (c.href == href && c.name != nn) = true
    · rw [if_pos h1] at hgc
      rw [← hgc]
    · rw [if_neg h1] at hgc
      subst hgc
      rcases Bool.and_eq_false_iff.mp (Bool.eq_false_iff.mpr h1) with hx | hx
      · exact absurd hhref (by simpa using hx)
      · simpa using hx
  · simp [updateChatNameIfExists]
  · intro p hp
    have hfold : (updateChatNameIfExists d href nn).1.foldersData =
        d.foldersData.map (fun f => { f with chats := (updateFirstByHref href nn f.chats).1 }) := by
      simp [updateChatNameIfExists, List.map_map]
    rw [hfold] at hp
    have hp2 := mem_zip_map _ d.foldersData p hp
    refine ⟨by rw [hp2], ?_, ?_⟩
    · intro hclean
      rw [hp2]
      simp [updateFirstByHref_clean href nn p.1.chats hclean]
    · intro pre c post hdec hpre hc
      obtain ⟨c', hcs, h1, h2, h3, h4, h5⟩ := updateFirstByHref_decomp href nn pre c post hpre hc
      refine ⟨c', ?_, h1, h2, h3, h4, h5⟩
      rw [hp2]
      show (updateFirstByHref href nn p.1.chats).1 = pre ++ c' :: post
      rw [hdec]
      exact hcs

/-- Witness for C1 amended on document `d1`. -/
theorem updateChatName_spec_witness :
    ∃ c', fld1out.chats = [] ++ c' :: [chB] ∧ c'.name = "new" ∧ c'.href = chA.href ∧
      c'.pinned = chA.pinned ∧ c'.pinnedAt = chA.pinnedAt ∧ c'.creationIndex = chA.creationIndex := by
  have h := ((updateChatName_spec d1 "h" "new").2.2 (fld1, fld1out) (by decide)).2.2
  exact h [] chA [chB] rfl (by simp) rfl

/-- C2: `sortItems` orders any pinned item before any unpinned item,
orders two pinned items by ascending `pinnedAt`, orders two unpinned
items by ascending `creationIndex`, and on the four spec items yields
[pinnedAt 50, pinnedAt 100, creationIndex 5, creationIndex 10]. -/
theorem sortItems_spec :
    (∀ a b : Item, a.pinned = true → b.pinned = false →
      sortItems a b < 0 ∧ 0 < sortItems b a) ∧
    (∀ (a b : Item) (ta tb : Int), a.pinned = true → b.pinned = true →
      a.pinnedAt = some ta → b.pinnedAt = some tb →
      ((sortItems a b < 0 ↔ ta < tb) ∧ (sortItems a b = 0 ↔ ta = tb))) ∧
    (∀ a b : Item, a.pinned = false → b.pinned = false →
      ((sortItems a b < 0 ↔ a.creationIndex < b.creationIndex) ∧
       (sortItems a b = 0 ↔ a.creationIndex = b.creationIndex))) ∧
    jsSort sortItems [sortA, sortB, sortC, sortD] = [sortB, sortA, sortD, sortC] := by
  refine ⟨?_, ?_, ?_, by decide⟩
  · intro a b ha hb
    simp [sortItems, ha, hb]
  · intro a b ta tb ha hb hta htb
    simp [sortItems, ha, hb, hta, htb, sub_neg, sub_eq_zero]
  · intro a b ha hb
    simp [sortItems, ha, hb, sub_neg, sub_eq_zero]

/-- Witness for C2 at concrete items. -/
theorem sortItems_spec_witness :
    sortItems sortA sortC < 0 ∧ (sortItems sortA sortB < 0 ↔ (100:Int) < 50) := by
  refine ⟨(sortItems_spec.1 sortA sortC rfl rfl).1, ?_⟩
  exact (sortItems_spec.2.1 sortA sortB 100 50 rfl rfl rfl rfl).1

/-- C3: folding `createFolder` over pairwise-distinct fresh names never
errors and appends, per call, a folder with `chats=[]`, `pinned=false`
and the call timestamp as `creationIndex`; and on any document already
holding a folder named `n`, `createFolder n` errors with
`DuplicateNameError` (returning no new document, so the document is
unchanged). -/
theorem createFolder_spec :
    (∀ (ps : List (String × Int)) (d : Document),
      (ps.map Prod.fst).Nodup →
      (∀ p ∈ ps, ∀ f ∈ d.foldersData, f.name ≠ p.1) →
      createFolders d ps =
        .ok { foldersData := d.foldersData ++ ps.map (fun p => newFolder p.1 p.2),
              bookmarkChats := d.bookmarkChats }) ∧
    (∀ (d : Document) (n : String) (t : Int),
      (∃ f ∈ d.foldersData, f.name = n) →
      createFolder d n t = .error .duplicateName) := by
  constructor
  · exact fun ps d h1 h2 => createFolders_ok ps d h1 h2
  · intro d n t ⟨f, hf, hname⟩
    unfold createFolder
    rw [if_pos (List.any_eq_true.mpr ⟨f, hf, by simpa using hname⟩)]

/-- Witness for C3 on a two-name sequence and on document `dA`. -/
theorem createFolder_spec_witness :
    createFolders emptyDoc [("a", 1), ("b", 2)] =
      .ok { foldersData := [newFolder "a" 1, newFolder "b" 2], bookmarkChats := [] } ∧
    createFolder dA "a" 5 = .error .duplicateName := by
  constructor
  · exact createFolder_spec.1 [("a", 1), ("b", 2)] emptyDoc (by decide) (by decide)
  · exact createFolder_spec.2 dA "a" 5 ⟨fldA, by simp [dA], rfl⟩

/-- C4 counterexample: the document `dA` contains a folder named "a",
yet renaming that folder to its own name raises `DuplicateNameError`
instead of being a permitted no-op, because the duplicate check scans
ALL folders including the one being renamed. -/
theorem renameFolder_self_raises :
    (∃ f ∈ dA.foldersData, f.name = "a") ∧
    renameFolder dA esEmpty "a" "a" = .error .duplicateName := by
  exact ⟨⟨fldA, by simp [dA], rfl⟩, rfl⟩

/-- C4 amended: `renameFolder` raises `DuplicateNameError` iff some
folder (including the one being renamed) already bears `newName`; in
particular a self-rename of an existing folder always raises, leaving
the document unchanged. -/
theorem renameFolder_error_iff (d : Document) (es : FolderExpansionState) (o n : String) :
    (renameFolder d es o n = .error .duplicateName ↔ ∃ f ∈ d.foldersData, f.name = n) ∧
    ((∃ f ∈ d.foldersData, f.name = n) → renameFolder d es n n = .error .duplicateName) := by
  have key : ∀ o', (renameFolder d es o' n = .error .duplicateName ↔
      ∃ f ∈ d.foldersData, f.name = n) := by
    intro o'
    unfold renameFolder
    by_cases h : d.foldersData.any (fun f => f.name == n) = true
    · rw [if_pos h]
      constructor
      · intro _
        obtain ⟨f, hf, hname⟩ := List.any_eq_true.mp h
        exact ⟨f, hf, by simpa using hname⟩
      · intro _; rfl
    · rw [if_neg (by simpa using h)]
      constructor
      · intro hbad
        cases hr : renameFolderList o' n d.foldersData <;> rw [hr] at hbad <;> simp at hbad
      · intro ⟨f, hf, hname⟩
        exact absurd (List.any_eq_true.mpr ⟨f, hf, by simpa using hname⟩) h
  exact ⟨key o, fun hx => (key n).mpr hx⟩

/-- Witness for C4 amended on document `dA`. -/
theorem renameFolder_error_iff_witness :
    renameFolder dA esEmpty "x" "a" = .error .duplicateName :=
  (renameFolder_error_iff dA esEmpty "x" "a").1.mpr ⟨fldA, by simp [dA], rfl⟩

/-- C5: after a successful rename of an existing folder `o` to a
distinct name `n`, the expansion map has no entry for `o`, maps `n` to
the exact value `o` had whenever `o` had one (and to the rendered
default `false` when `o` had none, which renders identically), and
leaves every other key unchanged. -/
theorem renameFolder_expansion (d : Document) (es : FolderExpansionState) (o n : String)
    (d' : Document) (es' : FolderExpansionState) (hne : o ≠ n)
    (hex : d.foldersData.any (fun f => f.name == o) = true)
    (hok : renameFolder d es o n = .ok (d', es')) :
    es' o = none ∧ (∀ v, es o = some v → es' n = some v) ∧
    es' n = some ((es o).getD false) ∧
    (∀ m, m ≠ o → m ≠ n → es' m = es m) := by
  unfold renameFolder at hok
  by_cases hdup : d.foldersData.any (fun f => f.name == n) = true
  · rw [if_pos hdup] at hok; exact absurd hok (by simp)
  · rw [if_neg hdup] at hok
    obtain ⟨fs, hfs⟩ := renameFolderList_isSome o n d.foldersData hex
    rw [hfs] at hok
    have hes : es' = esRename es o n := by
      have := (Except.ok.injEq _ _).mp hok
      exact (Prod.mk.injEq _ _ _ _ ▸ this).2.symm
    subst hes
    refine ⟨?_, ?_, ?_, ?_⟩
    · simp [esRename, hne]
    · intro v hv; simp [esRename, hv]
    · simp [esRename]
    · intro m hmo hmn; simp [esRename, hmo, hmn]

/-- Witness for C5: renaming expanded "Work" to "Projects". -/
theorem renameFolder_expansion_witness :
    esRename esW "Work" "Projects" "Work" = none ∧
    esRename esW "Work" "Projects" "Projects" = some true := by
  have h := renameFolder_expansion dW esW "Work" "Projects" dP
    (esRename esW "Work" "Projects") (by decide) (by rfl) rfl
  exact ⟨h.1, h.2.1 true rfl⟩

/-- C6 counterexample: with an empty expansion map, toggling the pin of
chat ("a","h") inside folder "f" writes `folderExpansionState["f"] =
true` ("Keep folder expanded" in the source), so the expansion-state map
is NOT left unchanged by every pin toggle. -/
theorem chatPin_changes_expansion :
    esEmpty "f" = none ∧
    (toggleChatPinInFolder d6 esEmpty "f" "a" "h" 5).2 "f" = some true :=
  ⟨rfl, rfl⟩

/-- C6 amended: toggling a folder pin or a bookmark pin leaves the
expansion map untouched; toggling a chat pin inside a folder leaves
every other key unchanged but, on success, forces the containing
folder entry to `true` (a no-op only when it was already `true`). -/
theorem pinToggle_expansion (d : Document) (es : FolderExpansionState)
    (fn cn ch : String) (t : Int) :
    (toggleFolderPin d es fn t).2 = es ∧
    (toggleBookmarkPin d es cn ch t).2 = es ∧
    (∀ k, k ≠ fn → (toggleChatPinInFolder d es fn cn ch t).2 k = es k) ∧
    (∀ fs, toggleChatPinFolders fn cn ch t d.foldersData = some fs →
      (toggleChatPinInFolder d es fn cn ch t).2 fn = some true) ∧
    (toggleChatPinFolders fn cn ch t d.foldersData = none →
      (toggleChatPinInFolder d es fn cn ch t).2 = es) := by
  refine ⟨?_, ?_, ?_, ?_, ?_⟩
  · unfold toggleFolderPin
    cases toggleFolderPinList fn t d.foldersData <;> rfl
  · unfold toggleBookmarkPin
    cases toggleChatPinList cn ch t d.bookmarkChats <;> rfl
  · intro k hk
    unfold toggleChatPinInFolder
    cases toggleChatPinFolders fn cn ch t d.foldersData
    · rfl
    · simp [esSetTrue, hk]
  · intro fs hfs
    unfold toggleChatPinInFolder
    rw [hfs]
    simp [esSetTrue]
  · intro h
    unfold toggleChatPinInFolder
    rw [h]

/-- Witness for C6 amended on document `d6`. -/
theorem pinToggle_expansion_witness :
    (toggleChatPinInFolder d6 esEmpty "f" "a" "h" 5).2 "g" = esEmpty "g" ∧
    (toggleFolderPin d6 esEmpty "f" 5).2 = esEmpty := by
  exact ⟨(pinToggle_expansion d6 esEmpty "f" "a" "h" 5).2.2.1 "g" (by decide),
         (pinToggle_expansion d6 esEmpty "f" "a" "h" 5).1⟩

/-- C7: `togglePin` assigns `pinnedAt` exactly on the false-to-true
transition and clears it on true-to-false, and every domain operation
preserves the invariant that `pinned` holds iff `pinnedAt` is non-null,
on every folder and every chat. -/
theorem pin_pinnedAt_invariant (d : Document) (es : FolderExpansionState)
    (o n fn cn ch nn href : String) (t : Int) (h : PinInv d) :
    (∀ c : Chat, c.pinned = false →
      togglePin t c = { c with pinned := true, pinnedAt := some t }) ∧
    (∀ c : Chat, c.pinned = true →
      togglePin t c = { c with pinned := false, pinnedAt := none }) ∧
    (∀ f : Folder, f.pinned = false →
      togglePinFolder t f = { f with pinned := true, pinnedAt := some t }) ∧
    (∀ f : Folder, f.pinned = true →
      togglePinFolder t f = { f with pinned := false, pinnedAt := none }) ∧
    (∀ d', createFolder d n t = .ok d' → PinInv d') ∧
    (∀ d' es', renameFolder d es o n = .ok (d', es') → PinInv d') ∧
    PinInv (deleteFolder d es n).1 ∧
    PinInv (addChatToFolder d es fn cn ch t).1 ∧
    PinInv (addBookmark d cn ch t) ∧
    PinInv (removeChatFromFolder d es fn cn ch).1 ∧
    PinInv (removeBookmark d cn ch) ∧
    PinInv (renameChatInFolder d es fn cn ch nn).1 ∧
    PinInv (renameBookmark d cn ch nn) ∧
    PinInv (toggleFolderPin d es fn t).1 ∧
    PinInv (toggleChatPinInFolder d es fn cn ch t).1 ∧
    PinInv (toggleBookmarkPin d es cn ch t).1 ∧
    PinInv (updateChatNameIfExists d href nn).1 := by
  obtain ⟨hF, hB⟩ := h
  refine ⟨?_, ?_, ?_, ?_, ?_, ?_, ?_, ?_, ?_, ?_, ?_, ?_, ?_, ?_, ?_, ?_, ?_⟩
  · intro c hc; simp [togglePin, hc]
  · intro c hc; simp [togglePin, hc]
  · intro f hf; simp [togglePinFolder, hf]
  · intro f hf; simp [togglePinFolder, hf]
  · intro d' hd'
    unfold createFolder at hd'
    by_cases hdup : (d.foldersData.any fun f => f.name == n) = true
    · rw [if_pos hdup] at hd'; exact absurd hd' (by simp)
    · rw [if_neg hdup] at hd'
      injection hd' with hd'
      subst hd'
      refine ⟨?_, hB⟩
      intro f hf
      rcases List.mem_append.mp hf with h1 | h1
      · exact hF f h1
      · have : f = { name := n, chats := [], pinned := false, pinnedAt := none, creationIndex := t } := by
          simpa using h1
        subst this
        exact ⟨by simp, by simp⟩
  · intro d' es' hd'
    unfold renameFolder at hd'
    by_cases hdup : (d.foldersData.any fun f => f.name == n) = true
    · rw [if_pos hdup] at hd'; exact absurd hd' (by simp)
    · rw [if_neg hdup] at hd'
      cases hr : renameFolderList o n d.foldersData with
      | none =>
        rw [hr] at hd'
        injection hd' with hd'
        injection hd' with h1 h2
        subst h1
        exact ⟨hF, hB⟩
      | some fs =>
        rw [hr] at hd'
        injection hd' with hd'
        injection hd' with h1 h2
        rw [← h1]
        refine ⟨?_, hB⟩
        exact renameFolderList_preserve o n folderPinOk (fun f hf => hf) d.foldersData fs hr hF
  · unfold deleteFolder
    cases hr : deleteFolderList n d.foldersData with
    | none => exact ⟨hF, hB⟩
    | some fs =>
      exact ⟨deleteFolderList_preserve n folderPinOk d.foldersData fs hr hF, hB⟩
  · unfold addChatToFolder
    cases hr : addChatFolders fn cn ch t d.foldersData with
    | none => exact ⟨hF, hB⟩
    | some fs =>
      exact ⟨addChatFolders_preserve fn cn ch t d.foldersData fs hr hF, hB⟩
  · unfold addBookmark
    by_cases hdup : (d.bookmarkChats.any fun c => c.name == cn && c.href == ch) = true
    · rw [if_pos hdup]; exact ⟨hF, hB⟩
    · rw [if_neg hdup]
      refine ⟨hF, ?_⟩
      intro c hc
      rcases List.mem_append.mp hc with h1 | h1
      · exact hB c h1
      · have : c = { name := cn, href := ch, pinned := false, pinnedAt := none, creationIndex := t } := by
          simpa using h1
        exact this ▸ chatPinOk_fresh cn ch t
  · unfold removeChatFromFolder
    cases hr : removeChatFolders fn cn ch d.foldersData with
    | none => exact ⟨hF, hB⟩
    | some fs =>
      exact ⟨removeChatFolders_preserve fn cn ch d.foldersData fs hr hF, hB⟩
  · refine ⟨hF, ?_⟩
    intro c hc
    exact hB c (List.mem_of_mem_filter hc)
  · unfold renameChatInFolder
    cases hr : renameChatFolders fn cn ch nn d.foldersData with
    | none => exact ⟨hF, hB⟩
    | some fs =>
      exact ⟨renameChatFolders_preserve fn cn ch nn d.foldersData fs hr hF, hB⟩
  · unfold renameBookmark
    cases hr : renameChatList cn ch nn d.bookmarkChats with
    | none => exact ⟨hF, hB⟩
    | some cs =>
      exact ⟨hF, renameChatList_preserve cn ch nn chatPinOk (fun c hx => hx)
        d.bookmarkChats cs hr hB⟩
  · unfold toggleFolderPin
    cases hr : toggleFolderPinList fn t d.foldersData with
    | none => exact ⟨hF, hB⟩
    | some fs =>
      exact ⟨toggleFolderPinList_preserve fn t folderPinOk
        (fun f hf => folderPinOk_togglePinFolder t f hf.2) d.foldersData fs hr hF, hB⟩
  · unfold toggleChatPinInFolder
    cases hr : toggleChatPinFolders fn cn ch t d.foldersData with
    | none => exact ⟨hF, hB⟩
    | some fs =>
      exact ⟨toggleChatPinFolders_preserve fn cn ch t d.foldersData fs hr hF, hB⟩
  · unfold toggleBookmarkPin
    cases hr : toggleChatPinList cn ch t d.bookmarkChats with
    | none => exact ⟨hF, hB⟩
    | some cs =>
      exact ⟨hF, toggleChatPinList_preserve cn ch t chatPinOk
        (fun c _ => chatPinOk_togglePin t c) d.bookmarkChats cs hr hB⟩
  · constructor
    · intro f' hf'
      simp only [updateChatNameIfExists, List.map_map, List.mem_map] at hf'
      obtain ⟨f, hf, rfl⟩ := hf'
      exact ⟨(hF f hf).1, updateFirstByHref_preserve href nn f.chats (hF f hf).2⟩
    · intro c' hc'
      simp only [updateChatNameIfExists, List.mem_map] at hc'
      obtain ⟨c, hc, rfl⟩ := hc'
      by_cases h1 : (c.href == href && c.name != nn) = true
      · rw [if_pos h1]; exact hB c hc
      · rw [if_neg h1]; exact hB c hc

/-- Witness for C7 on document `d6`. -/
theorem pin_pinnedAt_invariant_witness :
    PinInv d6 ∧ PinInv (toggleFolderPin d6 esEmpty "f" 5).1 ∧
    PinInv (addBookmark d6 "x" "k" 5) := by
  have hinv : PinInv d6 := by decide
  have h := pin_pinnedAt_invariant d6 esEmpty "o" "n" "f" "x" "k" "nn" "h" 5 hinv
  exact ⟨hinv, h.2.2.2.2.2.2.2.2.2.2.2.2.2.1, h.2.2.2.2.2.2.2.2.1⟩

/-- C8 counterexample: payload `j8` parses to a truthy object whose
`foldersData` and `bookmarkChats` are arrays, so per the claim this
payload should be imported; instead migration throws on the `null` folder
element, the import is reported failed, and the in-memory state has
already been replaced (it differs from `cur0`). -/
theorem import_failure_mutates :
    importOnLoad cur0 0 (some j8) = ((.arr [.null], .arr []), .failedImport) ∧
    truthy j8 = true ∧
    isArr (getProp j8 "foldersData") = true ∧
    isArr (getProp j8 "bookmarkChats") = true ∧
    (Json.arr [.null], Json.arr []) ≠ cur0 := by
  refine ⟨rfl, rfl, rfl, rfl, ?_⟩
  intro hx
  have := congrArg Prod.fst hx
  simp [cur0] at this

/-- C8 amended: import leaves the document unchanged on a parse failure
or a top-level shape failure; once the shape check passes the document
is replaced by the imported arrays, with success reported iff migrating
every element completes without throwing (every folder element an
object whose `chats` field is an array of objects-or-arrays, every
bookmark element an object or an array; array elements survive because
strict-mode property writes on a parsed array succeed) -- a migration
throw reports failure while the replacement has already happened. -/
theorem importOnLoad_spec (cur : Json × Json) (t : Int) (parsed : Option Json) :
    (parsed = none → importOnLoad cur t parsed = (cur, .failedImport)) ∧
    (∀ j, parsed = some j →
      (truthy j = false ∨ isArr (getProp j "foldersData") = false ∨
       isArr (getProp j "bookmarkChats") = false) →
      importOnLoad cur t parsed = (cur, .invalidFormat)) ∧
    (∀ j fd bc fd' bc', parsed = some j → truthy j = true →
      getProp j "foldersData" = some (.arr fd) → getProp j "bookmarkChats" = some (.arr bc) →
      ensureList (ensureFolderJson t) fd = .ok fd' →
      ensureList (ensureChatJson t) bc = .ok bc' →
      importOnLoad cur t parsed = ((.arr fd', .arr bc'), .success)) ∧
    (∀ j fd bc fd', parsed = some j → truthy j = true →
      getProp j "foldersData" = some (.arr fd) → getProp j "bookmarkChats" = some (.arr bc) →
      ensureList (ensureFolderJson t) fd = .error fd' →
      importOnLoad cur t parsed = ((.arr fd', .arr bc), .failedImport)) ∧
    ((importOnLoad cur t parsed).2 = .success →
      ∃ j fd bc fd' bc', parsed = some j ∧ truthy j = true ∧
        getProp j "foldersData" = some (.arr fd) ∧ getProp j "bookmarkChats" = some (.arr bc) ∧
        ensureList (ensureFolderJson t) fd = .ok fd' ∧
        ensureList (ensureChatJson t) bc = .ok bc' ∧
        (importOnLoad cur t parsed).1 = (.arr fd', .arr bc')) := by
  refine ⟨?_, ?_, ?_, ?_, ?_⟩
  · intro h; subst h; rfl
  · intro j hj hbad
    subst hj
    simp only [importOnLoad]
    cases htr : truthy j with
    | false => rfl
    | true =>
      cases hfd : getProp j "foldersData" with
      | none => rfl
      | some v =>
        cases v with
        | arr fd =>
          cases hbc : getProp j "bookmarkChats" with
          | none => rfl
          | some w =>
            cases w with
            | arr bc =>
              exfalso
              rcases hbad with hb | hb | hb
              · rw [htr] at hb; cases hb
              · rw [hfd] at hb; simp [isArr] at hb
              · rw [hbc] at hb; simp [isArr] at hb
            | null => rfl
            | bool b => rfl
            | num m => rfl
            | str s => rfl
            | obj fs => rfl
        | null => rfl
        | bool b => rfl
        | num m => rfl
        | str s => rfl
        | obj fs => rfl
  · intro j fd bc fd' bc' hj htr hfd hbc hf hb
    subst hj
    simp only [importOnLoad, htr, hfd, hbc, hf, hb]
  · intro j fd bc fd' hj htr hfd hbc hf
    subst hj
    simp only [importOnLoad, htr, hfd, hbc, hf]
  · intro hs
    cases hp : parsed with
    | none => rw [hp] at hs; simp [importOnLoad] at hs
    | some j =>
      rw [hp] at hs
      simp only [importOnLoad] at hs
      cases htr : truthy j with
      | false =>
        rw [htr] at hs
        exact ImportOutcome.noConfusion
          (show ImportOutcome.invalidFormat = ImportOutcome.success from hs)
      | true =>
        rw [htr] at hs
        cases hfd : getProp j "foldersData" with
        | none =>
          rw [hfd] at hs
          exact ImportOutcome.noConfusion
            (show ImportOutcome.invalidFormat = ImportOutcome.success from hs)
        | some v =>
          rw [hfd] at hs
          cases v with
          | arr fd =>
            cases hbc : getProp j "bookmarkChats" with
            | none =>
              rw [hbc] at hs
              exact ImportOutcome.noConfusion
                (show ImportOutcome.invalidFormat = ImportOutcome.success from hs)
            | some w =>
              rw [hbc] at hs
              cases w with
              | arr bc =>
                cases hf : ensureList (ensureFolderJson t) fd with
                | error fd' => simp [hf] at hs
                | ok fd' =>
                  cases hb : ensureList (ensureChatJson t) bc with
                  | error bc' => simp [hf, hb] at hs
                  | ok bc' =>
                    refine ⟨j, fd, bc, fd', bc', rfl, htr, hfd, hbc, hf, hb, ?_⟩
                    simp only [importOnLoad, htr, hfd, hbc, hf, hb]
              | null =>
                exact ImportOutcome.noConfusion
                  (show ImportOutcome.invalidFormat = ImportOutcome.success from hs)
              | bool b =>
                exact ImportOutcome.noConfusion
                  (show ImportOutcome.invalidFormat = ImportOutcome.success from hs)
              | num m =>
                exact ImportOutcome.noConfusion
                  (show ImportOutcome.invalidFormat = ImportOutcome.success from hs)
              | str s =>
                exact ImportOutcome.noConfusion
                  (show ImportOutcome.invalidFormat = ImportOutcome.success from hs)
              | obj fs =>
                exact ImportOutcome.noConfusion
                  (show ImportOutcome.invalidFormat = ImportOutcome.success from hs)
          | null =>
            exact ImportOutcome.noConfusion
              (show ImportOutcome.invalidFormat = ImportOutcome.success from hs)
          | bool b =>
            exact ImportOutcome.noConfusion
              (show ImportOutcome.invalidFormat = ImportOutcome.success from hs)
          | num m =>
            exact ImportOutcome.noConfusion
              (show ImportOutcome.invalidFormat = ImportOutcome.success from hs)
          | str s =>
            exact ImportOutcome.noConfusion
              (show ImportOutcome.invalidFormat = ImportOutcome.success from hs)
          | obj fs =>
            exact ImportOutcome.noConfusion
              (show ImportOutcome.invalidFormat = ImportOutcome.success from hs)

/-- Witness for C8 amended: parse failure and a falsy payload leave the
state unchanged, and the payload whose bookmarks array holds an array
element imports successfully (migration does not throw on arrays). -/
theorem importOnLoad_spec_witness :
    importOnLoad cur0 0 none = (cur0, .failedImport) ∧
    importOnLoad cur0 0 (some (.num 0)) = (cur0, .invalidFormat) ∧
    importOnLoad cur0 0 (some jBmArr) = ((.arr [], .arr [.arr []]), .success) := by
  exact ⟨(importOnLoad_spec cur0 0 none).1 rfl,
         (importOnLoad_spec cur0 0 (some (.num 0))).2.1 (.num 0) rfl (Or.inl rfl),
         (importOnLoad_spec cur0 0 (some jBmArr)).2.2.1 jBmArr [] [.arr []] [] [.arr []]
           rfl rfl rfl rfl rfl rfl⟩

/-- C9: deleting a chat by (name, href) removes EVERY record matching
both fields from the targeted collection (root bookmarks, or the first
folder with the given name), keeps every non-matching record, and
leaves all other folders and the other collection unchanged. -/
theorem removeChat_spec (d : Document) (es : FolderExpansionState) (fn cn ch : String) :
    (∀ c ∈ (removeBookmark d cn ch).bookmarkChats, ¬(c.name = cn ∧ c.href = ch)) ∧
    (∀ c ∈ d.bookmarkChats, ¬(c.name = cn ∧ c.href = ch) →
      c ∈ (removeBookmark d cn ch).bookmarkChats) ∧
    ((removeBookmark d cn ch).foldersData = d.foldersData) ∧
    ((removeChatFromFolder d es fn cn ch).1.bookmarkChats = d.bookmarkChats) ∧
    (∀ (pre : List Folder) (f : Folder) (post : List Folder),
      d.foldersData = pre ++ f :: post → (∀ g ∈ pre, g.name ≠ fn) → f.name = fn →
      ∃ f', (removeChatFromFolder d es fn cn ch).1.foldersData = pre ++ f' :: post ∧
        f'.name = f.name ∧
        (∀ c ∈ f'.chats, ¬(c.name = cn ∧ c.href = ch)) ∧
        (∀ c ∈ f.chats, ¬(c.name = cn ∧ c.href = ch) → c ∈ f'.chats)) ∧
    ((∀ g ∈ d.foldersData, g.name ≠ fn) → (removeChatFromFolder d es fn cn ch).1 = d) := by
  have hkeep : ∀ c : Chat, (!(c.name == cn && c.href == ch)) = true ↔ ¬(c.name = cn ∧ c.href = ch) := by
    intro c
    simp [not_and, imp_iff_not_or]
  refine ⟨?_, ?_, rfl, ?_, ?_, ?_⟩
  · intro c hc
    have := List.mem_filter.mp hc
    exact (hkeep c).mp this.2
  · intro c hc hne
    exact List.mem_filter.mpr ⟨hc, (hkeep c).mpr hne⟩
  · unfold removeChatFromFolder
    cases removeChatFolders fn cn ch d.foldersData <;> rfl
  · intro pre f post hdec hpre hf
    refine ⟨{ f with chats := f.chats.filter (fun c => !(c.name == cn && c.href == ch)) }, ?_, rfl, ?_, ?_⟩
    · unfold removeChatFromFolder
      rw [hdec, removeChatFolders_decomp fn cn ch pre f post hpre hf]
    · intro c hc
      exact (hkeep c).mp (List.mem_filter.mp hc).2
    · intro c hc hne
      exact List.mem_filter.mpr ⟨hc, (hkeep c).mpr hne⟩
  · intro hnone
    unfold removeChatFromFolder
    rw [removeChatFolders_none fn cn ch d.foldersData hnone]

/-- Witness for C9 on document `d9` holding duplicate records. -/
theorem removeChat_spec_witness :
    (∀ c ∈ (removeBookmark d9 "c" "h").bookmarkChats, ¬(c.name = "c" ∧ c.href = "h")) ∧
    chB ∈ (removeBookmark d9 "c" "h").bookmarkChats := by
  exact ⟨(removeChat_spec d9 esEmpty "f" "c" "h").1,
         (removeChat_spec d9 esEmpty "f" "c" "h").2.1 chB (by decide) (by decide)⟩

/-- C10: import validates only the top-level shape: the payload `j10`,
whose folders array holds the same folder name twice and whose chats
hold the same (name, href) twice, imports successfully and verbatim;
the uniqueness rules are enforced instead by `createFolder`,
`renameFolder`, the folder add-chat guard and the bookmark guard. -/
theorem import_keeps_duplicates :
    importOnLoad cur0 0 (some j10) = ((.arr [fDup, fDup], .arr []), .success) ∧
    getProp fDup "name" = some (.str "dup") ∧
    getProp fDup "chats" = some (.arr [cX, cX]) ∧
    createFolder dDup "dup" 5 = .error .duplicateName ∧
    renameFolder dDup esEmpty "x" "dup" = .error .duplicateName ∧
    addChatToFolder d6 esEmpty "f" "a" "h" 9 = (d6, esEmpty) ∧
    addBookmark d9 "c" "h" 9 = d9 :=
  ⟨rfl, rfl, rfl, rfl, rfl, rfl, rfl⟩

end ChatFoldersExt
